import Mathlib

/-!
Shallow embedding of the nearest-neighbor TSP heuristic from `src/TSP.cpp`.

The repository provides `TSP.cpp`; the header `TSP.hpp` (declaring `Node`,
`Node::distance` and `TSP::Tour`) is not among the sources, so those three
items are modelled from the specification and are marked as such below.
Everything else is translated directly from `TSP.cpp`.

Machine integers: `size_t` values (identifiers, weights, counters) are
modelled as `Nat`; the only place where the width of `size_t` matters is the
sentinel `std::numeric_limits<size_t>::max()` used by the greedy scan, kept
here as the explicit constant `sizeTMax = 2 ^ 64 - 1`.
-/

namespace TSP

/-- Modelled from the spec: the record `Node` is declared in `TSP.hpp`, which
is missing from the sources. Spec §3: a point has an unsigned-integer
identifier and two real coordinates; the coordinates are modelled as
rationals so that everything stays executable. -/
structure Node where
  id : Nat
  x : ℚ
  y : ℚ
deriving DecidableEq, Repr

/-- Value of `std::numeric_limits<size_t>::max()` on the usual 64-bit
platform: the initial value of `minDist` in `TSP::nearestNeighbor`. -/
def sizeTMax : Nat := 2 ^ 64 - 1

/-- Modelled from the spec: `Node::distance` is declared in `TSP.hpp`, which
is missing from the sources. Spec §4.1: the Euclidean plane distance
(square root of the sum of squared coordinate differences) truncated to a
non-negative integer magnitude matching the `size_t` weight type. For a
nonnegative rational `q` the truncated real square root `⌊Real.sqrt q⌋`
equals `Nat.sqrt ⌊q⌋` (both say the largest `n` with `n ^ 2 ≤ q`), which
keeps the definition executable. -/
def Node.distance (a b : Node) : Nat :=
  Nat.sqrt (⌊(a.x - b.x) ^ 2 + (a.y - b.y) ^ 2⌋).toNat

/-- Modelled from the spec: the record `TSP::Tour` is declared in `TSP.hpp`,
which is missing from the sources. Spec §3: an ordered path of points, a
parallel list of edge weights, and a total-distance accumulator
(zero-initialised, as `tour.total_distance += minDist` requires). -/
structure Tour where
  path : List Node
  weights : List Nat
  total_distance : Nat
deriving DecidableEq, Repr

/-- State of `std::unordered_map<size_t, bool> visited`, as an association
list with distinct keys. The algorithm only ever consumes key membership and
the key count, so the iteration order of the hash map is irrelevant here. -/
abbrev Visited := List (Nat × Bool)

/-- Test `visited.find(k) != visited.end()`: key presence. The stored `Bool`
value is never read by the algorithm. -/
def keyMem (v : Visited) (k : Nat) : Bool :=
  v.any (fun p => p.1 == k)

/-- Effect of the statement `visited[startCity.id] == true;` on line 84 of
`TSP.cpp`: `operator[]` inserts the key with the value-initialised mapped
value `false` when the key is absent, and the result of the `==` comparison
is discarded. -/
def touch (v : Visited) (k : Nat) : Visited :=
  if keyMem v k then v else (k, false) :: v

/-- Effect of `visited[nextCity.id] = true;`: insert or update to `true`. -/
def setTrue (v : Visited) (k : Nat) : Visited :=
  if keyMem v k then v.map (fun p => if p.1 == k then (p.1, true) else p)
  else (k, true) :: v

/-- Result of `visited.size()`: the number of distinct keys. -/
def vsize (v : Visited) : Nat := v.length

/-- Body of the inner `for` loop of `TSP::nearestNeighbor` (lines 94–105):
skip visited points; otherwise compare the distance from the current point
against the best so far and keep the strictly better candidate, so the
earliest-scanned point wins exact ties. -/
def scanStep (cur : Node) (visited : Visited) (acc : Node × Nat) (c : Node) :
    Node × Nat :=
  if keyMem visited c.id then acc
  else if Node.distance cur c < acc.2 then (c, Node.distance cur c) else acc

/-- One full scan of the inner `for` loop: fold `scanStep` over the cities in
enumeration order, starting from `nextCity = startCity` (the current point)
and `minDist = std::numeric_limits<size_t>::max()`. -/
def scanNext (cur : Node) (visited : Visited) (cities : List Node) :
    Node × Nat :=
  cities.foldl (scanStep cur visited) (cur, sizeTMax)

/-- Closing step of `TSP::nearestNeighbor` (lines 114–117): append the
distance from the current point back to `tour.path.front()`, re-append the
front point, and add the closing distance to the total. `headD` stands for
`front()`; the path is never empty when this runs. -/
def closeTour (cur : Node) (tour : Tour) : Tour :=
  ⟨tour.path ++ [tour.path.headD cur],
   tour.weights ++ [Node.distance cur (tour.path.headD cur)],
   tour.total_distance + Node.distance cur (tour.path.headD cur)⟩

/-- Main `while (visited.size() < cities.size())` loop of
`TSP::nearestNeighbor` (lines 88–112) followed by the closing step. The
C++ loop has no fuel, but every genuine iteration inserts a fresh key into
`visited`, so `cities.length` steps of fuel are enough whenever the loop
terminates at all; `none` models a diverging loop. -/
def nnLoop (cities : List Node) : Nat → Node → Visited → Tour → Option Tour
  | 0, cur, visited, tour =>
      if vsize visited < cities.length then none
      else some (closeTour cur tour)
  | fuel + 1, cur, visited, tour =>
      if vsize visited < cities.length then
        nnLoop cities fuel (scanNext cur visited cities).1
          (setTrue visited (scanNext cur visited cities).1.id)
          ⟨tour.path ++ [(scanNext cur visited cities).1],
           tour.weights ++ [(scanNext cur visited cities).2],
           tour.total_distance + (scanNext cur visited cities).2⟩
      else some (closeTour cur tour)

/-- Translation of `TSP::getStartCity` (lines 60–71): scan the list for the
first node with the requested identifier; if none matches, fall back to
`*cities.begin()`. On an empty list that fallback dereferences the end
iterator — undefined behavior — modelled as `none` (which `head?` returns
exactly there). -/
def getStartCity (cities : List Node) (start_id : Nat) : Option Node :=
  match cities.find? (fun n => n.id == start_id) with
  | some n => some n
  | none => cities.head?

/-- Translation of `TSP::nearestNeighbor` (lines 73–121): resolve the start
city, initialise the tour with `path = [start]`, `weights = [0]`,
`total_distance = 0` and the visited map holding the start key (inserted
with value `false` by the `==` statement), then run the greedy loop.
`none` covers the two non-returning behaviors: an empty collection
(undefined behavior inside `getStartCity`) and a diverging loop. -/
def nearestNeighbor (cities : List Node) (start_id : Nat) : Option Tour :=
  match getStartCity cities start_id with
  | none => none
  | some startCity =>
      nnLoop cities cities.length startCity (touch [] startCity.id)
        ⟨[startCity], [0], 0⟩

/-- Marker token looked for by `TSP::constructCities`. -/
def marker : String := "NODE_COORD_SECTION"

/-- Translation of the preamble loop of `TSP::constructCities` (lines 32–34):
`do { getline(fin, line); } while (line.find("NODE_COORD_SECTION"));`.
The loop exits only when `line.find` returns `0`, i.e. when the line read
begins with the marker. When no line of the file does, `getline` fails at end
of file and (since C++11) erases `line` to the empty string, whose `find` is
`npos`, so the loop never exits; that divergence is modelled as `none`. The
file is modelled as its list of lines. -/
def skipPreamble : List String → Option (List String)
  | [] => none
  | l :: ls => if marker.isPrefixOf l then some ls else skipPreamble ls

/-- View of the stream left after the preamble, as consumed by
`fin >> ID >> x >> y` (lines 38–43): formatted extraction skips all
whitespace including newlines, so the remaining lines collapse into a single
list of maximal whitespace-free tokens in file order. -/
def tokenize (lines : List String) : List String :=
  (lines.foldr (fun l acc => l.split (fun c => c.isWhitespace) ++ acc) []).filter
    (fun t => !t.isEmpty)

/-- Modelled from the spec: `fin >> x` extraction of a `double` field (the
stream machinery is C++ standard library code, not in the sources), read
exactly as a rational, for the plain decimal literals of the spec's file
format (optional minus sign, digits, optional fractional digits). -/
def parseCoord (s : String) : Option ℚ :=
  let sign : ℚ := if s.startsWith "-" then -1 else 1
  let body := if s.startsWith "-" then s.drop 1 else s
  match body.splitOn "." with
  | [w] => (w.toNat?).map (fun n => sign * (n : ℚ))
  | [w, f] =>
      match w.toNat?, f.toNat? with
      | some n, some m => some (sign * ((n : ℚ) + (m : ℚ) / (10 : ℚ) ^ f.length))
      | _, _ => none
  | _ => none

/-- Data loop of `TSP::constructCities` (lines 40–43): repeatedly extract an
identifier and two coordinates from the token stream and append a `Node`;
the first failed extraction (or exhaustion of the stream) breaks the loop. -/
def readTriples : List String → List Node
  | a :: b :: c :: rest =>
      match a.toNat?, parseCoord b, parseCoord c with
      | some i, some x, some y => Node.mk i x y :: readTriples rest
      | _, _, _ => []
  | _ => []

/-- Translation of `TSP::constructCities` (lines 24–45), over the lines of an
already-opened file: skip the preamble through the first line beginning with
the marker (`none` models the diverging loop when there is no such line),
then read whitespace-separated `(id, x, y)` triples from the rest. -/
def constructCities (lines : List String) : Option (List Node) :=
  (skipPreamble lines).map (fun rest => readTriples (tokenize rest))

/-- Restatement of claim C8 word for word, for comparison with
`constructCities`: skip an arbitrary preamble up to and including the first
line merely CONTAINING the literal token (anywhere in the line), then read
zero or more LINES of exactly three whitespace-separated fields, stopping at
end of file or at the first line that fails to parse as three such fields. -/
def lineHasMarker (l : String) : Bool :=
  !((l.splitOn marker).length == 1)

/-- Per-line parse of three whitespace-separated fields, used by the
claim-wording variant `constructCitiesClaimed`. -/
def lineTriple (l : String) : Option Node :=
  match (l.split (fun c => c.isWhitespace)).filter (fun t => !t.isEmpty) with
  | [a, b, c] =>
      match a.toNat?, parseCoord b, parseCoord c with
      | some i, some x, some y => some (Node.mk i x y)
      | _, _, _ => none
  | _ => none

/-- Line-based data reading described by claim C8's wording. -/
def readLineTriples : List String → List Node
  | [] => []
  | l :: ls =>
      match lineTriple l with
      | some n => n :: readLineTriples ls
      | none => []

/-- Claim C8's description of `constructCities` as a function (see
`lineHasMarker`); deviates from the code both in how the marker line is
recognised and in reading line-wise rather than token-wise. -/
def constructCitiesClaimed : List String → Option (List Node)
  | [] => some []
  | l :: ls =>
      if lineHasMarker l then some (readLineTriples ls)
      else constructCitiesClaimed ls

/-! Helper lemmas about the visited map. -/

theorem keyMem_iff (v : Visited) (k : Nat) :
    keyMem v k = true ↔ k ∈ v.map Prod.fst := by
  simp [keyMem, List.any_eq_true, List.mem_map]

theorem keyMem_false_iff (v : Visited) (k : Nat) :
    keyMem v k = false ↔ k ∉ v.map Prod.fst := by
  rw [← keyMem_iff]
  cases keyMem v k <;> simp

theorem setTrue_map_fst (v : Visited) (k : Nat) (h : keyMem v k = false) :
    (setTrue v k).map Prod.fst = k :: v.map Prod.fst := by
  simp [setTrue, h]

theorem setTrue_length (v : Visited) (k : Nat) (h : keyMem v k = false) :
    (setTrue v k).length = v.length + 1 := by
  simp [setTrue, h]

theorem touch_nil (k : Nat) : touch [] k = [(k, false)] := by
  simp [touch, keyMem]

/-! Characterisation of the inner greedy scan. -/

theorem scanFoldAux (cur : Node) (visited : Visited) :
    ∀ (cities : List Node) (acc r : Node × Nat),
      List.foldl (scanStep cur visited) acc cities = r →
      (r = acc ∧
        ∀ u ∈ cities, keyMem visited u.id = false → acc.2 ≤ Node.distance cur u) ∨
      (keyMem visited r.1.id = false ∧ r.2 = Node.distance cur r.1 ∧ r.2 < acc.2 ∧
        (∀ u ∈ cities, keyMem visited u.id = false → r.2 ≤ Node.distance cur u) ∧
        ∃ l₁ l₂, cities = l₁ ++ r.1 :: l₂ ∧
          ∀ u ∈ l₁, keyMem visited u.id = false → r.2 < Node.distance cur u) := by
  intro cities
  induction cities with
  | nil =>
      intro acc r h
      exact Or.inl ⟨h.symm, by simp⟩
  | cons c cs ih =>
      intro acc r h
      rw [List.foldl_cons] at h
      by_cases hv : keyMem visited c.id = true
      · have hstep : scanStep cur visited acc c = acc := by simp [scanStep, hv]
        rw [hstep] at h
        rcases ih acc r h with ⟨hr, hmin⟩ |
          ⟨hunv, hdist, hlt, hmin, l₁, l₂, hsplit, hstrict⟩
        · refine Or.inl ⟨hr, ?_⟩
          intro u hu huv
          rcases List.mem_cons.1 hu with rfl | hu
          · rw [hv] at huv; cases huv
          · exact hmin u hu huv
        · refine Or.inr ⟨hunv, hdist, hlt, ?_, c :: l₁, l₂, by rw [List.cons_append, hsplit], ?_⟩
          · intro u hu huv
            rcases List.mem_cons.1 hu with rfl | hu
            · rw [hv] at huv; cases huv
            · exact hmin u hu huv
          · intro u hu huv
            rcases List.mem_cons.1 hu with rfl | hu
            · rw [hv] at huv; cases huv
            · exact hstrict u hu huv
      · have hv' : keyMem visited c.id = false := by
          cases hq : keyMem visited c.id
          · rfl
          · exact absurd hq hv
        by_cases hd : Node.distance cur c < acc.2
        · have hstep : scanStep cur visited acc c = (c, Node.distance cur c) := by
            simp [scanStep, hv', hd]
          rw [hstep] at h
          rcases ih _ r h with ⟨hr, hmin⟩ |
            ⟨hunv, hdist, hlt, hmin, l₁, l₂, hsplit, hstrict⟩
          · subst hr
            refine Or.inr ⟨hv', rfl, hd, ?_, [], cs, rfl, by simp⟩
            intro u hu huv
            rcases List.mem_cons.1 hu with rfl | hu
            · exact Nat.le_refl _
            · exact hmin u hu huv
          · have hlt' : r.2 < acc.2 := Nat.lt_trans hlt hd
            refine Or.inr ⟨hunv, hdist, hlt', ?_, c :: l₁, l₂,
              by rw [List.cons_append, hsplit], ?_⟩
            · intro u hu huv
              rcases List.mem_cons.1 hu with rfl | hu
              · exact Nat.le_of_lt hlt
              · exact hmin u hu huv
            · intro u hu huv
              rcases List.mem_cons.1 hu with rfl | hu
              · exact hlt
              · exact hstrict u hu huv
        · have hstep : scanStep cur visited acc c = acc := by simp [scanStep, hv', hd]
          rw [hstep] at h
          have hge : acc.2 ≤ Node.distance cur c := Nat.le_of_not_lt hd
          rcases ih acc r h with ⟨hr, hmin⟩ |
            ⟨hunv, hdist, hlt, hmin, l₁, l₂, hsplit, hstrict⟩
          · refine Or.inl ⟨hr, ?_⟩
            intro u hu huv
            rcases List.mem_cons.1 hu with rfl | hu
            · exact hge
            · exact hmin u hu huv
          · refine Or.inr ⟨hunv, hdist, hlt, ?_, c :: l₁, l₂,
              by rw [List.cons_append, hsplit], ?_⟩
            · intro u hu huv
              rcases List.mem_cons.1 hu with rfl | hu
              · exact Nat.le_of_lt (Nat.lt_of_lt_of_le hlt hge)
              · exact hmin u hu huv
            · intro u hu huv
              rcases List.mem_cons.1 hu with rfl | hu
              · exact Nat.lt_of_lt_of_le hlt hge
              · exact hstrict u hu huv

theorem scanNext_spec (cur : Node) (visited : Visited) (cities : List Node)
    (hex : ∃ u ∈ cities, keyMem visited u.id = false ∧ Node.distance cur u < sizeTMax) :
    (scanNext cur visited cities).1 ∈ cities ∧
    keyMem visited (scanNext cur visited cities).1.id = false ∧
    (scanNext cur visited cities).2 = Node.distance cur (scanNext cur visited cities).1 ∧
    (∀ u ∈ cities, keyMem visited u.id = false →
      (scanNext cur visited cities).2 ≤ Node.distance cur u) ∧
    ∃ l₁ l₂, cities = l₁ ++ (scanNext cur visited cities).1 :: l₂ ∧
      ∀ u ∈ l₁, keyMem visited u.id = false →
        (scanNext cur visited cities).2 < Node.distance cur u := by
  obtain ⟨u, hu, huv, hud⟩ := hex
  rcases scanFoldAux cur visited cities (cur, sizeTMax) (scanNext cur visited cities) rfl with
    ⟨hr, hmin⟩ | ⟨hunv, hdist, hlt, hmin, l₁, l₂, hsplit, hstrict⟩
  · exact absurd (hmin u hu huv) (Nat.not_le.2 hud)
  · refine ⟨?_, hunv, hdist, hmin, l₁, l₂, hsplit, hstrict⟩
    have hm := List.mem_append_right l₁
      (List.mem_cons_self (scanNext cur visited cities).1 l₂)
    rwa [← hsplit] at hm

/-! Basic shape invariants of the loop: parallel lengths, first weight, and
the running total being the sum of the weights. -/

theorem distance_self (a : Node) : Node.distance a a = 0 := by
  unfold Node.distance
  rw [sub_self, sub_self]
  norm_num

theorem closeTour_props (cur : Node) (tour : Tour)
    (hne : tour.path ≠ []) (hlen : tour.path.length = tour.weights.length)
    (hsum : tour.total_distance = tour.weights.sum) :
    (closeTour cur tour).path ≠ [] ∧
    (closeTour cur tour).path.length = (closeTour cur tour).weights.length ∧
    (closeTour cur tour).total_distance = (closeTour cur tour).weights.sum ∧
    (closeTour cur tour).weights.head? = tour.weights.head? ∧
    (closeTour cur tour).path.head? = tour.path.head? ∧
    (closeTour cur tour).path.getLast? = tour.path.head? := by
  obtain ⟨p, ps, hp⟩ := List.exists_cons_of_ne_nil hne
  have hwne : tour.weights ≠ [] := by
    intro hw
    rw [hp, hw] at hlen
    simp at hlen
  obtain ⟨w, ws, hw⟩ := List.exists_cons_of_ne_nil hwne
  refine ⟨by simp [closeTour], by simp [closeTour, hlen], ?_, ?_, ?_, ?_⟩
  · simp [closeTour, List.sum_append, hsum]
  · simp [closeTour, hw]
  · simp [closeTour, hp]
  · simp only [closeTour, hp, List.headD_cons]
    rw [List.getLast?_concat]
    simp

theorem nnLoop_basic (cities : List Node) :
    ∀ (fuel : Nat) (cur : Node) (visited : Visited) (tour t : Tour),
      nnLoop cities fuel cur visited tour = some t →
      tour.path ≠ [] →
      tour.path.length = tour.weights.length →
      tour.total_distance = tour.weights.sum →
      t.path ≠ [] ∧
      t.path.length = t.weights.length ∧
      t.total_distance = t.weights.sum ∧
      t.weights.head? = tour.weights.head? ∧
      t.path.head? = tour.path.head? ∧
      t.path.getLast? = tour.path.head? := by
  intro fuel
  induction fuel with
  | zero =>
      intro cur visited tour t h hne hlen hsum
      simp only [nnLoop] at h
      by_cases hg : vsize visited < cities.length
      · rw [if_pos hg] at h
        cases h
      · rw [if_neg hg] at h
        obtain rfl : closeTour cur tour = t := Option.some.inj h
        exact closeTour_props cur tour hne hlen hsum
  | succ fuel ih =>
      intro cur visited tour t h hne hlen hsum
      simp only [nnLoop] at h
      by_cases hg : vsize visited < cities.length
      · rw [if_pos hg] at h
        have hwne : tour.weights ≠ [] := by
          intro hw
          rw [hw] at hlen
          obtain ⟨p, ps, hp⟩ := List.exists_cons_of_ne_nil hne
          rw [hp] at hlen
          simp at hlen
        obtain ⟨hne', hlen', hsum', hwh, hph, hpl⟩ :=
          ih _ _ _ _ h (by simp) (by simp [hlen]) (by simp [hsum, List.sum_append])
        refine ⟨hne', hlen', hsum', ?_, ?_, ?_⟩
        · rw [hwh]
          exact List.head?_append_of_ne_nil _ hwne
        · rw [hph]
          exact List.head?_append_of_ne_nil _ hne
        · rw [hpl]
          exact List.head?_append_of_ne_nil _ hne
      · rw [if_neg hg] at h
        obtain rfl : closeTour cur tour = t := Option.some.inj h
        exact closeTour_props cur tour hne hlen hsum

/-! Main invariant of the greedy loop: with distinct identifiers and
distances below the `size_t` sentinel, the loop terminates within
`cities.length` steps and returns a path visiting every city exactly once
before the closing element. -/

theorem nnLoop_close_case (cities : List Node) (cur : Node) (tour : Tour)
    (hpnodup : (tour.path.map Node.id).Nodup)
    (hsub : ∀ n ∈ tour.path, n ∈ cities)
    (hge : cities.length ≤ tour.path.length) :
    (closeTour cur tour).path.length = cities.length + 1 ∧
    ((closeTour cur tour).path.dropLast.map Node.id).Perm (cities.map Node.id) := by
  have hsubids : tour.path.map Node.id ⊆ cities.map Node.id := by
    intro x hx
    obtain ⟨n, hn, rfl⟩ := List.mem_map.1 hx
    exact List.mem_map_of_mem _ (hsub n hn)
  have hsp := List.subperm_of_subset hpnodup hsubids
  have hlen : tour.path.length = cities.length := by
    have h1 := hsp.length_le
    simp only [List.length_map] at h1
    omega
  refine ⟨by simp [closeTour, hlen], ?_⟩
  have hdl : (closeTour cur tour).path.dropLast = tour.path := by
    simp [closeTour, List.dropLast_concat]
  rw [hdl]
  exact hsp.perm_of_length_le (by simp only [List.length_map]; omega)

theorem nnLoop_main (cities : List Node)
    (hnodup : (cities.map Node.id).Nodup)
    (hdist : ∀ a ∈ cities, ∀ b ∈ cities, Node.distance a b < sizeTMax) :
    ∀ (fuel : Nat) (cur : Node) (visited : Visited) (tour : Tour),
      (∀ k, keyMem visited k = true ↔ k ∈ tour.path.map Node.id) →
      vsize visited = tour.path.length →
      (tour.path.map Node.id).Nodup →
      (∀ n ∈ tour.path, n ∈ cities) →
      tour.path ≠ [] →
      tour.path.getLast? = some cur →
      cities.length ≤ tour.path.length + fuel →
      ∃ t, nnLoop cities fuel cur visited tour = some t ∧
        t.path.length = cities.length + 1 ∧
        (t.path.dropLast.map Node.id).Perm (cities.map Node.id) := by
  intro fuel
  induction fuel with
  | zero =>
      intro cur visited tour hkeys hsize hpnodup hsub hne hcur hfuel
      have hg : ¬ vsize visited < cities.length := by omega
      refine ⟨closeTour cur tour, ?_, ?_, ?_⟩
      · simp only [nnLoop]
        rw [if_neg hg]
      · exact (nnLoop_close_case cities cur tour hpnodup hsub (by omega)).1
      · exact (nnLoop_close_case cities cur tour hpnodup hsub (by omega)).2
  | succ fuel ih =>
      intro cur visited tour hkeys hsize hpnodup hsub hne hcur hfuel
      by_cases hg : vsize visited < cities.length
      · -- there is an unvisited city
        have hex : ∃ u ∈ cities, keyMem visited u.id = false ∧
            Node.distance cur u < sizeTMax := by
          have hcurmem : cur ∈ cities := hsub cur (List.mem_of_mem_getLast? hcur)
          by_contra hno
          push_neg at hno
          have hcsub : cities.map Node.id ⊆ tour.path.map Node.id := by
            intro x hx
            obtain ⟨c, hc, rfl⟩ := List.mem_map.1 hx
            have := hno c hc
            rcases hq : keyMem visited c.id with _ | _
            · exact absurd (hdist cur hcurmem c hc) (Nat.not_lt.2 (this hq))
            · exact (hkeys c.id).1 hq
          have := (List.subperm_of_subset hnodup hcsub).length_le
          simp only [List.length_map] at this
          omega
        obtain ⟨hmem, hunv, _, _, _⟩ := scanNext_spec cur visited cities hex
        have hnotin : (scanNext cur visited cities).1.id ∉ tour.path.map Node.id := by
          intro hmemid
          rw [← hkeys _] at hmemid
          simp [hunv] at hmemid
        have hkeys' : ∀ k, keyMem (setTrue visited (scanNext cur visited cities).1.id) k
            = true ↔ k ∈ (tour.path ++ [(scanNext cur visited cities).1]).map Node.id := by
          intro k
          rw [keyMem_iff, setTrue_map_fst _ _ hunv]
          simp only [List.mem_cons, List.map_append, List.mem_append, List.map_cons,
            List.map_nil, List.mem_singleton]
          rw [← keyMem_iff, hkeys k]
          tauto
        obtain ⟨t, ht, hlen, hperm⟩ := ih (scanNext cur visited cities).1
          (setTrue visited (scanNext cur visited cities).1.id)
          ⟨tour.path ++ [(scanNext cur visited cities).1],
           tour.weights ++ [(scanNext cur visited cities).2],
           tour.total_distance + (scanNext cur visited cities).2⟩
          hkeys'
          (by simp [vsize, setTrue_length _ _ hunv]; simp [vsize] at hsize; omega)
          (by
            simp only [List.map_append, List.map_cons, List.map_nil]
            rw [List.nodup_append]
            exact ⟨hpnodup, List.nodup_singleton _, by
              intro x hx hy
              simp only [List.mem_singleton] at hy
              subst hy
              exact hnotin hx⟩)
          (by
            intro n hn
            rcases List.mem_append.1 hn with hn | hn
            · exact hsub n hn
            · rw [List.mem_singleton] at hn
              subst hn
              exact hmem)
          (by simp)
          (List.getLast?_concat _)
          (by simp only [List.length_append, List.length_singleton]; omega)
        refine ⟨t, ?_, hlen, hperm⟩
        simp only [nnLoop]
        rw [if_pos hg]
        exact ht
      · refine ⟨closeTour cur tour, ?_, ?_, ?_⟩
        · simp only [nnLoop]
          rw [if_neg hg]
        · exact (nnLoop_close_case cities cur tour hpnodup hsub (by omega)).1
        · exact (nnLoop_close_case cities cur tour hpnodup hsub (by omega)).2

/-! Start-city resolution. -/

theorem find_id_unique (sid : Nat) :
    ∀ (cities : List Node), (cities.map Node.id).Nodup →
      ∀ n ∈ cities, n.id = sid →
      cities.find? (fun m => m.id == sid) = some n := by
  intro cities
  induction cities with
  | nil =>
      intro _ n hn
      cases hn
  | cons c cs ih =>
      intro hnodup n hn hid
      simp only [List.map_cons, List.nodup_cons] at hnodup
      by_cases hc : c.id = sid
      · have hnc : n = c := by
          rcases List.mem_cons.1 hn with rfl | hmem
          · rfl
          · exfalso
            refine hnodup.1 ?_
            rw [hc, ← hid]
            exact List.mem_map_of_mem _ hmem
        subst hnc
        exact List.find?_cons_of_pos _ (by simp [hid])
      · have hmem : n ∈ cs := by
          rcases List.mem_cons.1 hn with rfl | hmem
          · exact absurd hid hc
          · exact hmem
        rw [List.find?_cons_of_neg _ (by simp [hc])]
        exact ih hnodup.2 n hmem hid

theorem getStartCity_finds (cities : List Node) (sid : Nat)
    (hnodup : (cities.map Node.id).Nodup) (n : Node) (hn : n ∈ cities)
    (hid : n.id = sid) : getStartCity cities sid = some n := by
  simp [getStartCity, find_id_unique sid cities hnodup n hn hid]

/-! The claim theorems. -/

/-- C1: for every non-empty collection with distinct identifiers, a start
identifier naming a point in it (and all pairwise distances below the
`size_t` sentinel, the domain in which the C++ `size_t` arithmetic is
defined), `nearestNeighbor` returns a tour whose path lists every identifier
of the collection exactly once followed by the start point again, so the
first element equals the last and the length is `cities.length + 1`. -/
theorem nearestNeighbor_closed_tour (cities : List Node) (start_id : Nat)
    (_hne : cities ≠ [])
    (hnodup : (cities.map Node.id).Nodup)
    (hstart : ∃ s ∈ cities, s.id = start_id)
    (hdist : ∀ a ∈ cities, ∀ b ∈ cities, Node.distance a b < sizeTMax) :
    ∃ t s, nearestNeighbor cities start_id = some t ∧
      s ∈ cities ∧ s.id = start_id ∧
      t.path.head? = some s ∧ t.path.getLast? = some s ∧
      t.path.length = cities.length + 1 ∧
      (t.path.dropLast.map Node.id).Perm (cities.map Node.id) := by
  obtain ⟨s, hs, hsid⟩ := hstart
  have hgs : getStartCity cities start_id = some s :=
    getStartCity_finds cities start_id hnodup s hs hsid
  obtain ⟨t, ht, hlen, hperm⟩ := nnLoop_main cities hnodup hdist cities.length s
    (touch [] s.id) ⟨[s], [0], 0⟩
    (by
      intro k
      rw [touch_nil, keyMem_iff]
      simp)
    (by simp [vsize, touch_nil])
    (by simp)
    (by
      intro n hn
      rw [List.mem_singleton] at hn
      subst hn
      exact hs)
    (by simp)
    (by simp)
    (by simp only [List.length_singleton]; omega)
  obtain ⟨hne', hlen', hsum', hwh, hph, hpl⟩ := nnLoop_basic cities cities.length s
    (touch [] s.id) ⟨[s], [0], 0⟩ t ht (by simp) (by simp) (by simp)
  refine ⟨t, s, ?_, hs, hsid, ?_, ?_, hlen, hperm⟩
  · simp [nearestNeighbor, hgs]
    exact ht
  · rw [hph]
    simp
  · rw [hpl]
    simp

/-- C2: whenever some unvisited city remains (with its distance below the
`size_t` sentinel), the inner scan selects an unvisited city of the
collection at strictly minimal distance from the current point, exact ties
going to the earliest-enumerated city, and one iteration of the greedy loop
appends exactly that city to the path and exactly that distance to the
weights and the running total. -/
theorem nn_greedy_step (cities : List Node) (cur : Node) (visited : Visited)
    (hex : ∃ u ∈ cities, keyMem visited u.id = false ∧
      Node.distance cur u < sizeTMax) :
    (scanNext cur visited cities).1 ∈ cities ∧
    keyMem visited (scanNext cur visited cities).1.id = false ∧
    (scanNext cur visited cities).2
      = Node.distance cur (scanNext cur visited cities).1 ∧
    (∀ u ∈ cities, keyMem visited u.id = false →
      (scanNext cur visited cities).2 ≤ Node.distance cur u) ∧
    (∃ l₁ l₂, cities = l₁ ++ (scanNext cur visited cities).1 :: l₂ ∧
      ∀ u ∈ l₁, keyMem visited u.id = false →
        (scanNext cur visited cities).2 < Node.distance cur u) ∧
    (∀ (fuel : Nat) (tour : Tour), vsize visited < cities.length →
      nnLoop cities (fuel + 1) cur visited tour
        = nnLoop cities fuel (scanNext cur visited cities).1
            (setTrue visited (scanNext cur visited cities).1.id)
            ⟨tour.path ++ [(scanNext cur visited cities).1],
             tour.weights ++ [(scanNext cur visited cities).2],
             tour.total_distance + (scanNext cur visited cities).2⟩) := by
  obtain ⟨h1, h2, h3, h4, h5⟩ := scanNext_spec cur visited cities hex
  refine ⟨h1, h2, h3, h4, h5, ?_⟩
  intro fuel tour hguard
  simp only [nnLoop]
  rw [if_pos hguard]

/-- C3: whenever `nearestNeighbor` returns a tour, its `total_distance`
equals exactly the sum of its `weights`. -/
theorem total_eq_sum_weights (cities : List Node) (start_id : Nat) (t : Tour)
    (h : nearestNeighbor cities start_id = some t) :
    t.total_distance = t.weights.sum := by
  unfold nearestNeighbor at h
  cases hgs : getStartCity cities start_id with
  | none =>
      rw [hgs] at h
      cases h
  | some s =>
      rw [hgs] at h
      exact (nnLoop_basic cities cities.length s (touch [] s.id)
        ⟨[s], [0], 0⟩ t h (by simp) (by simp) (by simp)).2.2.1

/-- C4: whenever `nearestNeighbor` returns a tour, the weights list has the
same length as the path and its first entry is `0`. -/
theorem weights_shape (cities : List Node) (start_id : Nat) (t : Tour)
    (h : nearestNeighbor cities start_id = some t) :
    t.weights.length = t.path.length ∧ t.weights.head? = some 0 := by
  unfold nearestNeighbor at h
  cases hgs : getStartCity cities start_id with
  | none =>
      rw [hgs] at h
      cases h
  | some s =>
      rw [hgs] at h
      obtain ⟨_, hlen, _, hwh, _, _⟩ := nnLoop_basic cities cities.length s
        (touch [] s.id) ⟨[s], [0], 0⟩ t h (by simp) (by simp) (by simp)
      refine ⟨hlen.symm, ?_⟩
      rw [hwh]
      rfl

/-- C5: on an empty collection, tour construction does not fail with any
error: `getStartCity` dereferences the end iterator of the empty list
(undefined behavior, modelled as `none`), so no `EmptyCollection` error
exists anywhere in the code. -/
theorem nearestNeighbor_empty : nearestNeighbor ([] : List Node) 0 = none := rfl

/-- C6: on a non-empty collection with distinct identifiers, `getStartCity`
returns the point carrying the requested identifier when one exists, and
silently falls back to the first-enumerated point when none does. -/
theorem getStartCity_resolution (cities : List Node) (sid : Nat)
    (hne : cities ≠ []) (hnodup : (cities.map Node.id).Nodup) :
    (∀ n ∈ cities, n.id = sid → getStartCity cities sid = some n) ∧
    ((∀ n ∈ cities, n.id ≠ sid) →
      ∃ h0, cities.head? = some h0 ∧ getStartCity cities sid = some h0) := by
  constructor
  · intro n hn hid
    exact getStartCity_finds cities sid hnodup n hn hid
  · intro hno
    have hf : cities.find? (fun m => m.id == sid) = none := by
      rw [List.find?_eq_none]
      intro n hn
      simp [hno n hn]
    obtain ⟨p, ps, rfl⟩ := List.exists_cons_of_ne_nil hne
    exact ⟨p, rfl, by simp [getStartCity, hf]⟩

/-- C7: a file that can be opened but has no line starting with the
`NODE_COORD_SECTION` marker makes the preamble loop of `constructCities`
run forever (modelled as `none`): it does not terminate with an empty
collection, and no `EmptyCollection` error exists in the code. -/
theorem constructCities_no_marker : constructCities ["hello"] = none := rfl

/-- C9: for a collection holding exactly one point with the start set to its
identifier, the tour is `path = [a, a]`, `weights = [0, 0]`,
`total_distance = 0`. -/
theorem singleton_tour (a : Node) :
    nearestNeighbor [a] a.id = some ⟨[a, a], [0, 0], 0⟩ := by
  have hf : ([a] : List Node).find? (fun n => n.id == a.id) = some a :=
    List.find?_cons_of_pos _ (by simp)
  have hgs : getStartCity [a] a.id = some a := by
    simp [getStartCity, hf]
  simp only [nearestNeighbor, hgs]
  rw [touch_nil]
  rw [(rfl : ([a] : List Node).length = 0 + 1)]
  simp only [nnLoop]
  rw [if_neg (by simp [vsize])]
  simp [closeTour, distance_self]

/-- C10: the key set of the visited map always equals the identifier set of
the current path: the start key is present from the beginning — inserted
with mapped value `false` by the statement `visited[startCity.id] == true;`,
whose comparison result is discarded — and each loop iteration adds exactly
the selected city's key, which was not yet an identifier of the path, so no
point is appended twice before the closing step. Visitedness is tested by
key presence only, so the stored `false` is harmless. -/
theorem visited_keys_invariant :
    (∀ s : Node, touch [] s.id = [(s.id, false)]) ∧
    (∀ (cities : List Node) (cur : Node) (visited : Visited) (path : List Node),
      (∀ k, keyMem visited k = true ↔ k ∈ path.map Node.id) →
      (∃ u ∈ cities, keyMem visited u.id = false ∧
        Node.distance cur u < sizeTMax) →
      (scanNext cur visited cities).1.id ∉ path.map Node.id ∧
      (∀ k, keyMem (setTrue visited (scanNext cur visited cities).1.id) k = true ↔
        k ∈ (path ++ [(scanNext cur visited cities).1]).map Node.id)) := by
  constructor
  · intro s
    exact touch_nil s.id
  · intro cities cur visited path hkeys hex
    obtain ⟨hmem, hunv, _, _, _⟩ := scanNext_spec cur visited cities hex
    have hnotin : (scanNext cur visited cities).1.id ∉ path.map Node.id := by
      intro hmemid
      rw [← hkeys _] at hmemid
      simp [hunv] at hmemid
    refine ⟨hnotin, ?_⟩
    intro k
    rw [keyMem_iff, setTrue_map_fst _ _ hunv]
    simp only [List.mem_cons, List.map_append, List.mem_append, List.map_cons,
      List.map_nil, List.mem_singleton]
    rw [← keyMem_iff, hkeys k]
    tauto

/-! Claim C8: preamble skipping and data reading of `constructCities`. -/

theorem skipPreamble_append (m : String) (rest : List String)
    (hm : marker.isPrefixOf m = true) :
    ∀ pre : List String, (∀ l ∈ pre, marker.isPrefixOf l = false) →
      skipPreamble (pre ++ m :: rest) = some rest := by
  intro pre
  induction pre with
  | nil =>
      intro _
      simp [skipPreamble, hm]
  | cons p ps ih =>
      intro hpre
      have hp : marker.isPrefixOf p = false := hpre p (List.mem_cons_self _ _)
      rw [List.cons_append]
      simp [skipPreamble, hp]
      exact ih (fun l hl => hpre l (List.mem_cons_of_mem _ hl))

/-- C8 counterexample: on the file whose lines are
`"a NODE_COORD_SECTION b"`, `"NODE_COORD_SECTION"`, `"1 2"`, `"3"`,
the claim's reading (`constructCitiesClaimed`: stop at the first line
containing the token, then parse per-line triples) yields the empty
collection, while the code (`constructCities`: stop at the first line
starting with the token, then parse the token stream across line breaks)
yields the single node `(1, 2, 3)`. -/
theorem constructCities_claim_deviates :
    constructCities ["a NODE_COORD_SECTION b", "NODE_COORD_SECTION", "1 2", "3"]
        = some [⟨1, 2, 3⟩] ∧
    constructCitiesClaimed ["a NODE_COORD_SECTION b", "NODE_COORD_SECTION", "1 2", "3"]
        = some [] ∧
    some [(⟨1, 2, 3⟩ : Node)] ≠ some ([] : List Node) := by
  refine ⟨by with_unfolding_all decide, by with_unfolding_all decide, by simp⟩

/-- C8 as amended: `constructCities` skips every line up to and including
the first line that BEGINS with the `NODE_COORD_SECTION` token (hanging when
no line begins with it), then reads the remaining content as one
whitespace-separated token stream, ignoring line boundaries, repeatedly
taking `(integer id, real x, real y)` triples in order and stopping at
exhaustion or at the first triple that fails to parse. -/
theorem constructCities_skips_preamble (pre : List String) (m : String)
    (rest : List String)
    (hpre : ∀ l ∈ pre, marker.isPrefixOf l = false)
    (hm : marker.isPrefixOf m = true) :
    constructCities (pre ++ m :: rest) = some (readTriples (tokenize rest)) := by
  unfold constructCities
  rw [skipPreamble_append m rest hm pre hpre]
  rfl

/-! Concrete inputs used by the witnesses: the spec's own scenario
A(0,0), B(0,3), C(4,0), started at A. -/

def nodeA : Node := ⟨1, 0, 0⟩

def nodeB : Node := ⟨2, 0, 3⟩

def nodeC : Node := ⟨3, 4, 0⟩

def demoCities : List Node := [nodeA, nodeB, nodeC]

def demoTour : Tour := ⟨[nodeA, nodeB, nodeC, nodeA], [0, 3, 5, 4], 12⟩

/-- Witness for C1 at the spec's three-city scenario. -/
theorem nearestNeighbor_closed_tour_witness :
    ∃ t s, nearestNeighbor demoCities 1 = some t ∧
      s ∈ demoCities ∧ s.id = 1 ∧
      t.path.head? = some s ∧ t.path.getLast? = some s ∧
      t.path.length = demoCities.length + 1 ∧
      (t.path.dropLast.map Node.id).Perm (demoCities.map Node.id) :=
  nearestNeighbor_closed_tour demoCities 1 (by with_unfolding_all decide)
    (by with_unfolding_all decide) (by with_unfolding_all decide)
    (by with_unfolding_all decide)

/-- Witness for C2: first iteration of the loop on the three-city scenario,
where only the start city is visited. -/
theorem nn_greedy_step_witness :
    (scanNext nodeA [(1, false)] demoCities).1 ∈ demoCities ∧
    keyMem [(1, false)] (scanNext nodeA [(1, false)] demoCities).1.id = false ∧
    (scanNext nodeA [(1, false)] demoCities).2
      = Node.distance nodeA (scanNext nodeA [(1, false)] demoCities).1 ∧
    (∀ u ∈ demoCities, keyMem [(1, false)] u.id = false →
      (scanNext nodeA [(1, false)] demoCities).2 ≤ Node.distance nodeA u) ∧
    (∃ l₁ l₂, demoCities = l₁ ++ (scanNext nodeA [(1, false)] demoCities).1 :: l₂ ∧
      ∀ u ∈ l₁, keyMem [(1, false)] u.id = false →
        (scanNext nodeA [(1, false)] demoCities).2 < Node.distance nodeA u) ∧
    (∀ (fuel : Nat) (tour : Tour), vsize [(1, false)] < demoCities.length →
      nnLoop demoCities (fuel + 1) nodeA [(1, false)] tour
        = nnLoop demoCities fuel (scanNext nodeA [(1, false)] demoCities).1
            (setTrue [(1, false)] (scanNext nodeA [(1, false)] demoCities).1.id)
            ⟨tour.path ++ [(scanNext nodeA [(1, false)] demoCities).1],
             tour.weights ++ [(scanNext nodeA [(1, false)] demoCities).2],
             tour.total_distance + (scanNext nodeA [(1, false)] demoCities).2⟩) :=
  nn_greedy_step demoCities nodeA [(1, false)] (by with_unfolding_all decide)

/-- Witness for C3 at the spec's three-city scenario. -/
theorem total_eq_sum_weights_witness :
    nearestNeighbor demoCities 1 = some demoTour ∧
    demoTour.total_distance = demoTour.weights.sum :=
  ⟨by with_unfolding_all decide,
   total_eq_sum_weights demoCities 1 demoTour (by with_unfolding_all decide)⟩

/-- Witness for C4 at the spec's three-city scenario. -/
theorem weights_shape_witness :
    nearestNeighbor demoCities 1 = some demoTour ∧
    (demoTour.weights.length = demoTour.path.length ∧
      demoTour.weights.head? = some 0) :=
  ⟨by with_unfolding_all decide,
   weights_shape demoCities 1 demoTour (by with_unfolding_all decide)⟩

/-- Witness for C6 at the spec's three-city scenario with requested start 2. -/
theorem getStartCity_resolution_witness :
    (∀ n ∈ demoCities, n.id = 2 → getStartCity demoCities 2 = some n) ∧
    ((∀ n ∈ demoCities, n.id ≠ 2) →
      ∃ h0, demoCities.head? = some h0 ∧ getStartCity demoCities 2 = some h0) :=
  getStartCity_resolution demoCities 2 (by with_unfolding_all decide)
    (by with_unfolding_all decide)

/-- Witness for C8 as amended on a one-line preamble. -/
theorem constructCities_skips_preamble_witness :
    (∀ l ∈ ["junk"], marker.isPrefixOf l = false) ∧
    marker.isPrefixOf "NODE_COORD_SECTION" = true ∧
    constructCities (["junk"] ++ "NODE_COORD_SECTION" :: ["1 2 3"])
      = some (readTriples (tokenize ["1 2 3"])) :=
  ⟨by with_unfolding_all decide, by with_unfolding_all decide,
   constructCities_skips_preamble ["junk"] "NODE_COORD_SECTION" ["1 2 3"]
     (by with_unfolding_all decide) (by with_unfolding_all decide)⟩

/-- Witness for C10: initialisation at a start node and one loop step on the
three-city scenario with only the start visited and `path = [nodeA]`. -/
theorem visited_keys_invariant_witness :
    touch [] nodeA.id = [(nodeA.id, false)] ∧
    ((scanNext nodeA [(1, false)] demoCities).1.id ∉ ([nodeA].map Node.id) ∧
     (∀ k, keyMem (setTrue [(1, false)]
          (scanNext nodeA [(1, false)] demoCities).1.id) k = true ↔
        k ∈ (([nodeA] ++ [(scanNext nodeA [(1, false)] demoCities).1]).map Node.id))) :=
  ⟨visited_keys_invariant.1 nodeA,
   visited_keys_invariant.2 demoCities nodeA [(1, false)] [nodeA]
     (by intro k; simp [keyMem, nodeA]; omega)
     (by with_unfolding_all decide)⟩

end TSP
